import Mathlib

/-!
Shallow embedding of `src/main.py` of the issue-explorer repository, and
proofs about its timeline reducer (`log_issues`), its TODO-count
accumulator (`log_commits`), and the `Issue` decoding/display helpers.

Timestamps (`datetime.timestamp()` values) are modelled as integers: every
claim below depends only on their linear order, never on float arithmetic.
-/

namespace IssueExplorer

/-- A timestamp as produced by `datetime.timestamp()`. -/
abbrev Timestamp := Int

/-- The `Issue` dataclass (src/main.py lines 113-119). -/
structure Issue where
  created_at : Timestamp
  closed_at : Option Timestamp
  number : Int
  title : String
  state : String
deriving DecidableEq

/-- A raw JSON issue record as consumed by `Issue.from_json`: the fields the
decoder reads.  `createdAt`/`closedAt` hold the timestamp denoted by the
ISO-8601 string, or `none` for JSON `null` (parsing of a well-formed ISO
string is abstracted to the timestamp it denotes). -/
structure IssueJson where
  number : Int
  title : String
  state : String
  createdAt : Option Timestamp
  closedAt : Option Timestamp
deriving DecidableEq

/-- `datetime.fromisoformat` applied to an already-abstracted field value:
on `None` it raises (`TypeError`), on a present value it returns the
timestamp. -/
def fromisoformat : Option Timestamp → Except String Timestamp
  | none => .error "TypeError: fromisoformat argument must be str"
  | some t => .ok t

/-- `Issue.from_json` (src/main.py lines 121-136).  Returns the records
printed to the console (the `if obj[createdAt] is None: print(obj)`
diagnostic) together with either the decoded issue or the raised
exception.  Mirrors the source order: the diagnostic print happens first,
then `closedAt` is examined (an explicit `None` check guards its parse),
then `createdAt` is parsed unguarded. -/
def Issue.from_json (obj : IssueJson) : List IssueJson × Except String Issue :=
  let logs := if obj.createdAt = none then [obj] else []
  let closed : Except String (Option Timestamp) :=
    match obj.closedAt with
    | none => .ok none
    | some c => (fromisoformat (some c)).map some
  let res : Except String Issue := do
    let ca ← closed
    let t ← fromisoformat obj.createdAt
    pure { created_at := t, closed_at := ca, number := obj.number,
           title := obj.title, state := obj.state.toLower }
  (logs, res)

/-- `Issue.state_color` (src/main.py lines 148-156): the RGBA display color
together with the console warning line printed, if any.  The source
function is total: every unrecognized value falls through to the final
`else` branch. -/
def Issue.state_color (i : Issue) : (Nat × Nat × Nat × Nat) × Option String :=
  if i.state = "open" then ((255, 255, 255, 255), none)
  else if i.state = "closed" then ((0, 255, 0, 255), none)
  else ((0, 0, 255, 255), some ("unknown state " ++ i.state))

/-! ## The timeline reducer (src/main.py lines 179-202) -/

/-- A `(timestamp, delta)` pair. -/
abbrev Event := Timestamp × Int

/-- The event list built at src/main.py lines 179-183: a `(created_at, +1)`
for every issue, followed by a `(closed_at, -1)` for every issue whose
`closed_at` is not `None`. -/
def created_closed_events (issues : List Issue) : List Event :=
  (issues.map fun i => (i.created_at, (1 : Int))) ++
    issues.filterMap fun i => i.closed_at.map fun c => (c, (-1 : Int))

/-- The comparison used by `created_closed_events.sort(key=lambda x: x[0])`:
order on the timestamp only. -/
def eventLE (a b : Event) : Prop := a.1 ≤ b.1

instance : DecidableRel eventLE := fun a b => inferInstanceAs (Decidable (a.1 ≤ b.1))

instance : IsTotal Event eventLE := ⟨fun a b => Int.le_total a.1 b.1⟩

instance : IsTrans Event eventLE := ⟨fun _ _ _ h₁ h₂ => le_trans h₁ h₂⟩

/-- `created_closed_events.sort(key=lambda x: x[0])` (src/main.py line 184).
Python `list.sort` is a stable sort on the key; it is modelled by the
stable `List.insertionSort` on the first component (any two stable sorts
by the same key agree on every list). -/
def sorted_events (issues : List Issue) : List Event :=
  (created_closed_events issues).insertionSort eventLE

/-- The three running counters of the scan at src/main.py lines 185-202;
the source variables are `num_open`, `num_total`, `num_closed`. -/
structure Counters where
  num_open : Int
  num_total : Int
  num_closed : Int
deriving DecidableEq

/-- All counters start at 0 (src/main.py lines 185-187). -/
def initCounters : Counters := ⟨0, 0, 0⟩

/-- One iteration of the loop at src/main.py lines 188-202:
`num_open += delta`; then `num_total += 1` if `delta == 1`, else
`num_closed += 1` if `delta == -1`. -/
def stepEvent (c : Counters) (e : Event) : Counters :=
  let c₁ : Counters := { c with num_open := c.num_open + e.2 }
  if e.2 = 1 then { c₁ with num_total := c₁.num_total + 1 }
  else if e.2 = -1 then { c₁ with num_closed := c₁.num_closed + 1 }
  else c₁

/-- The scan of the sorted event list: after each event the loop emits the
updated counters keyed by the event's timestamp (`rr.set_time_seconds`
followed by the `rr.log` calls). -/
def scanEvents (c : Counters) : List Event → List (Timestamp × Counters)
  | [] => []
  | e :: es => (e.1, stepEvent c e) :: scanEvents (stepEvent c e) es

/-- The full snapshot sequence emitted by the reducer part of `log_issues`. -/
def snapshots (issues : List Issue) : List (Timestamp × Counters) :=
  scanEvents initCounters (sorted_events issues)

/-- The counter state after the loop has processed every event. -/
def finalCounters (issues : List Issue) : Counters :=
  (sorted_events issues).foldl stepEvent initCounters

/-! ## The TODO-count accumulator (src/main.py lines 76-110) -/

/-- Bool test that a character list starts with the given pattern. -/
def strStartsWith : List Char → List Char → Bool
  | [], _ => true
  | _ :: _, [] => false
  | p :: ps, c :: cs => p == c && strStartsWith ps cs

/-- Python `str.count(pat)` for a non-empty pattern: the number of
non-overlapping occurrences of `pat`, scanning left to right and skipping
the whole pattern after each match.  Written with explicit fuel (one unit
per consumed character, so `s.length` suffices) to keep the recursion
structural. -/
def countFrom (pat : List Char) : Nat → List Char → Nat
  | 0, _ => 0
  | _, [] => 0
  | fuel + 1, c :: rest =>
    if pat ≠ [] ∧ strStartsWith pat (c :: rest) then
      countFrom pat fuel (rest.drop (pat.length - 1)) + 1
    else
      countFrom pat fuel rest

/-- `s.count(pat)` on strings (non-empty `pat`). -/
def strCount (pat s : String) : Nat := countFrom pat.data s.data.length s.data

/-- A commit as `log_commits` consumes it: its hash, its author's display
name, and the decoded contents of the file blobs of its tree (the
`blob.data_stream.read().decode(errors="ignore")` strings, oldest-first
commit order being the caller's `all_commits`). -/
structure Commit where
  hexsha : String
  authorName : String
  blobs : List String
deriving DecidableEq

/-- The `TODO_CACHE` dictionary: commit hash to TODO count.  Modelled as an
association list; `lookup` finds the most recent binding, matching Python
dict lookup (keys are only ever inserted when absent, so at most one
binding per key arises). -/
abbrev TodoCache := List (String × Nat)

/-- The blob traversal of src/main.py lines 89-94: the total count of the
fixed marker `"TODO("` over every file blob of the commit's tree. -/
def commitTodoCount (c : Commit) : Nat :=
  (c.blobs.map fun b => strCount "TODO(" b).sum

/-- The cache branch at src/main.py lines 85-95 for one commit: the
`todo_count` value logged for this commit, the cache afterwards, and the
number of full blob traversals performed (0 on a cache hit, 1 on a miss). -/
def processCommit (cache : TodoCache) (c : Commit) : Nat × TodoCache × Nat :=
  match cache.lookup c.hexsha with
  | some n => (n, cache, 0)
  | none => (commitTodoCount c, (c.hexsha, commitTodoCount c) :: cache, 1)

/-- The TODO-count bookkeeping of the `log_commits` loop over `all_commits`:
threads `TODO_CACHE` through the commits in order and returns the
per-commit logged counts, the final cache, and the total number of blob
traversals. -/
def runTodoAccumulator (cache : TodoCache) : List Commit → List Nat × TodoCache × Nat
  | [] => ([], cache, 0)
  | c :: cs =>
    let r := processCommit cache c
    let rest := runTodoAccumulator r.2.1 cs
    (r.1 :: rest.1, rest.2.1, r.2.2 + rest.2.2)

/-! ## Facts about one step of the reducer loop -/

theorem stepEvent_num_open (c : Counters) (e : Event) :
    (stepEvent c e).num_open = c.num_open + e.2 := by
  unfold stepEvent
  split
  · rfl
  · split <;> rfl

theorem stepEvent_num_total (c : Counters) (e : Event) :
    (stepEvent c e).num_total = c.num_total + if e.2 = 1 then 1 else 0 := by
  unfold stepEvent
  split
  · simp_all
  · split <;> simp_all

theorem stepEvent_num_closed (c : Counters) (e : Event) :
    (stepEvent c e).num_closed = c.num_closed + if e.2 = -1 then 1 else 0 := by
  unfold stepEvent
  split
  · rename_i h
    simp [h]
  · split <;> simp_all

/-! ## The C1 invariant: `num_open = num_total - num_closed` at every event -/

theorem events_delta (issues : List Issue) :
    ∀ e ∈ created_closed_events issues, e.2 = 1 ∨ e.2 = -1 := by
  intro e he
  unfold created_closed_events at he
  rcases List.mem_append.1 he with h | h
  · obtain ⟨i, -, rfl⟩ := List.mem_map.1 h
    left
    rfl
  · obtain ⟨i, -, hi⟩ := List.mem_filterMap.1 h
    obtain ⟨c, -, rfl⟩ := Option.map_eq_some'.1 hi
    right
    rfl

theorem scan_invariant (es : List Event) (c : Counters)
    (hd : ∀ e ∈ es, e.2 = 1 ∨ e.2 = -1)
    (hc : c.num_open = c.num_total - c.num_closed) :
    ∀ p ∈ scanEvents c es, p.2.num_open = p.2.num_total - p.2.num_closed := by
  induction es generalizing c with
  | nil => simp [scanEvents]
  | cons e es ih =>
    have hstep : (stepEvent c e).num_open =
        (stepEvent c e).num_total - (stepEvent c e).num_closed := by
      rcases hd e (List.mem_cons_self ..) with h | h <;>
        simp [stepEvent_num_open, stepEvent_num_total, stepEvent_num_closed, h, hc] <;>
        omega
    intro p hp
    rcases List.mem_cons.1 hp with rfl | hp
    · exact hstep
    · exact ih (stepEvent c e) (fun e' he' => hd e' (List.mem_cons_of_mem _ he')) hstep p hp

/-- C1: in the timeline reducer, after processing each event of the sorted
`(timestamp, delta)` sequence, the running counters satisfy
`num_open = num_total - num_closed`; this holds at every emitted snapshot of
the scan, for every input issue set. -/
theorem timeline_invariant (issues : List Issue) (p : Timestamp × Counters)
    (hp : p ∈ snapshots issues) :
    p.2.num_open = p.2.num_total - p.2.num_closed := by
  refine scan_invariant (sorted_events issues) initCounters ?_ (by simp [initCounters]) p hp
  intro e he
  exact events_delta issues e ((List.perm_insertionSort eventLE _).mem_iff.1 he)

/-- Witness for C1: the invariant at a concrete snapshot of a concrete run. -/
theorem timeline_invariant_witness :
    ((0 : Timestamp), (⟨1, 1, 0⟩ : Counters)) ∈ snapshots [⟨0, some 1, 1, "a", "open"⟩] ∧
      ((⟨1, 1, 0⟩ : Counters)).num_open =
        ((⟨1, 1, 0⟩ : Counters)).num_total - ((⟨1, 1, 0⟩ : Counters)).num_closed :=
  ⟨by decide, timeline_invariant [⟨0, some 1, 1, "a", "open"⟩] (0, ⟨1, 1, 0⟩) (by decide)⟩

/-! ## Closed forms for the counters after the whole loop -/

theorem foldl_num_open (es : List Event) (c : Counters) :
    (es.foldl stepEvent c).num_open = c.num_open + (es.map fun e => e.2).sum := by
  induction es generalizing c with
  | nil => simp
  | cons e es ih =>
    simp only [List.foldl_cons, ih, stepEvent_num_open, List.map_cons, List.sum_cons]
    ring

theorem foldl_num_total (es : List Event) (c : Counters) :
    (es.foldl stepEvent c).num_total = c.num_total + es.countP (fun e => e.2 == 1) := by
  induction es generalizing c with
  | nil => simp
  | cons e es ih =>
    simp only [List.foldl_cons, ih, stepEvent_num_total, List.countP_cons]
    by_cases h : e.2 = 1 <;> simp [h] <;> push_cast <;> ring

theorem foldl_num_closed (es : List Event) (c : Counters) :
    (es.foldl stepEvent c).num_closed = c.num_closed + es.countP (fun e => e.2 == -1) := by
  induction es generalizing c with
  | nil => simp
  | cons e es ih =>
    simp only [List.foldl_cons, ih, stepEvent_num_closed, List.countP_cons]
    by_cases h : e.2 = -1 <;> simp [h] <;> push_cast <;> ring

theorem countP_events_one (issues : List Issue) :
    (created_closed_events issues).countP (fun e => e.2 == 1) = issues.length := by
  have h₁ : (issues.map fun i => (i.created_at, (1 : Int))).countP (fun e => e.2 == 1) =
      issues.length := by
    induction issues with
    | nil => rfl
    | cons i is ih => simp [List.countP_cons, ih]
  have h₂ : (issues.filterMap fun i => i.closed_at.map fun c => (c, (-1 : Int))).countP
      (fun e => e.2 == 1) = 0 := by
    clear h₁
    induction issues with
    | nil => rfl
    | cons i is ih => cases hc : i.closed_at <;> simp [List.filterMap_cons, hc, List.countP_cons, ih]
  rw [created_closed_events, List.countP_append, h₁, h₂]
  omega

theorem countP_events_neg (issues : List Issue) :
    (created_closed_events issues).countP (fun e => e.2 == -1) =
      issues.countP (fun i => i.closed_at.isSome) := by
  have h₁ : (issues.map fun i => (i.created_at, (1 : Int))).countP (fun e => e.2 == -1) = 0 := by
    induction issues with
    | nil => rfl
    | cons i is ih => simp [List.countP_cons, ih]
  have h₂ : (issues.filterMap fun i => i.closed_at.map fun c => (c, (-1 : Int))).countP
      (fun e => e.2 == -1) = issues.countP (fun i => i.closed_at.isSome) := by
    clear h₁
    induction issues with
    | nil => rfl
    | cons i is ih =>
      cases hc : i.closed_at <;>
        simp [List.filterMap_cons, hc, List.countP_cons, ih]
  rw [created_closed_events, List.countP_append, h₁, h₂]
  omega

theorem sum_events_delta (issues : List Issue) :
    ((created_closed_events issues).map fun e => e.2).sum =
      (issues.length : Int) - issues.countP (fun i => i.closed_at.isSome) := by
  have h₁ : ((issues.map fun i => (i.created_at, (1 : Int))).map fun e => e.2).sum =
      (issues.length : Int) := by
    induction issues with
    | nil => rfl
    | cons i is ih =>
      simp only [List.map_cons, List.sum_cons, ih, List.length_cons]
      push_cast
      ring
  have h₂ : ((issues.filterMap fun i => i.closed_at.map fun c => (c, (-1 : Int))).map
      fun e => e.2).sum = -(issues.countP (fun i => i.closed_at.isSome) : Int) := by
    clear h₁
    induction issues with
    | nil => rfl
    | cons i is ih =>
      cases hc : i.closed_at with
      | none => simpa [List.filterMap_cons, hc, List.countP_cons] using ih
      | some c => simp [List.filterMap_cons, hc, List.countP_cons, ih]
  rw [created_closed_events, List.map_append, List.sum_append, h₁, h₂]
  ring

theorem finalCounters_num_total (issues : List Issue) :
    (finalCounters issues).num_total = (issues.length : Int) := by
  rw [finalCounters, sorted_events, foldl_num_total, (List.perm_insertionSort eventLE _).countP_eq,
    countP_events_one, initCounters]
  simp

theorem finalCounters_num_closed (issues : List Issue) :
    (finalCounters issues).num_closed = (issues.countP fun i => i.closed_at.isSome : Nat) := by
  rw [finalCounters, sorted_events, foldl_num_closed, (List.perm_insertionSort eventLE _).countP_eq,
    countP_events_neg, initCounters]
  simp

theorem finalCounters_num_open (issues : List Issue) :
    (finalCounters issues).num_open =
      (issues.length : Int) - issues.countP (fun i => i.closed_at.isSome) := by
  rw [finalCounters, sorted_events, foldl_num_open,
    ((List.perm_insertionSort eventLE (created_closed_events issues)).map
      (fun e => e.2)).sum_eq,
    sum_events_delta, initCounters]
  simp

theorem scan_getLast (es : List Event) (c : Counters) (h : es ≠ []) :
    ∃ t, (scanEvents c es).getLast? = some (t, es.foldl stepEvent c) := by
  induction es generalizing c with
  | nil => exact absurd rfl h
  | cons e es ih =>
    cases es with
    | nil => exact ⟨e.1, rfl⟩
    | cons e' es' =>
      obtain ⟨t, ht⟩ := ih (stepEvent c e) (by simp)
      refine ⟨t, ?_⟩
      have hsame : (scanEvents c (e :: e' :: es')).getLast? =
          (scanEvents (stepEvent c e) (e' :: es')).getLast? := by
        rw [scanEvents, scanEvents, List.getLast?_cons_cons, ← scanEvents]
      rw [hsame, ht]
      rfl

theorem closed_none_add_some (issues : List Issue) :
    (issues.countP fun i => i.closed_at.isNone) + (issues.countP fun i => i.closed_at.isSome) =
      issues.length := by
  induction issues with
  | nil => rfl
  | cons i is ih => cases h : i.closed_at <;> simp [List.countP_cons, h] <;> omega

theorem events_ne_nil (issues : List Issue) (h : issues ≠ []) :
    sorted_events issues ≠ [] := by
  intro hnil
  have hlen := congrArg List.length hnil
  rw [sorted_events, List.length_insertionSort, created_closed_events, List.length_append,
    List.length_map] at hlen
  simp at hlen
  exact h hlen.1

/-- C2: after the timeline reducer has processed all events, `num_total`
equals the number of issues (for a `Nodup` list, the number of distinct
issues) and `num_closed` equals the number of issues with a non-null
`closed_at`; for non-empty issue sets, the counter state at the final
emitted snapshot is `finalCounters`, whose `num_open` equals the number of
issues with no `closed_at`. -/
theorem final_counts (issues : List Issue) (hnd : issues.Nodup) :
    (finalCounters issues).num_total = (issues.length : Int) ∧
      (finalCounters issues).num_closed = (issues.countP fun i => i.closed_at.isSome : Nat) ∧
      (issues ≠ [] →
        (∃ t, (snapshots issues).getLast? = some (t, finalCounters issues)) ∧
          (finalCounters issues).num_open = (issues.countP fun i => i.closed_at.isNone : Nat)) := by
  refine ⟨finalCounters_num_total issues, finalCounters_num_closed issues, fun hne => ⟨?_, ?_⟩⟩
  · exact scan_getLast (sorted_events issues) initCounters (events_ne_nil issues hne)
  · rw [finalCounters_num_open]
    have := closed_none_add_some issues
    omega

/-- Witness for C2 at a concrete two-issue list. -/
theorem final_counts_witness :
    ([⟨0, some 1, 1, "a", "closed"⟩, ⟨2, none, 2, "b", "open"⟩] : List Issue).Nodup ∧
      ((finalCounters [⟨0, some 1, 1, "a", "closed"⟩, ⟨2, none, 2, "b", "open"⟩]).num_total =
          (([⟨0, some 1, 1, "a", "closed"⟩, ⟨2, none, 2, "b", "open"⟩] : List Issue).length : Int) ∧
        (finalCounters [⟨0, some 1, 1, "a", "closed"⟩, ⟨2, none, 2, "b", "open"⟩]).num_closed =
          (([⟨0, some 1, 1, "a", "closed"⟩, ⟨2, none, 2, "b", "open"⟩] : List Issue).countP
            (fun i => i.closed_at.isSome) : Nat) ∧
        (([⟨0, some 1, 1, "a", "closed"⟩, ⟨2, none, 2, "b", "open"⟩] : List Issue) ≠ [] →
          (∃ t, (snapshots [⟨0, some 1, 1, "a", "closed"⟩, ⟨2, none, 2, "b", "open"⟩]).getLast? =
              some (t, finalCounters [⟨0, some 1, 1, "a", "closed"⟩, ⟨2, none, 2, "b", "open"⟩])) ∧
            (finalCounters [⟨0, some 1, 1, "a", "closed"⟩, ⟨2, none, 2, "b", "open"⟩]).num_open =
              (([⟨0, some 1, 1, "a", "closed"⟩, ⟨2, none, 2, "b", "open"⟩] : List Issue).countP
                (fun i => i.closed_at.isNone) : Nat))) :=
  ⟨by decide, final_counts [⟨0, some 1, 1, "a", "closed"⟩, ⟨2, none, 2, "b", "open"⟩] (by decide)⟩

theorem counters_ext (a b : Counters) (h₁ : a.num_open = b.num_open)
    (h₂ : a.num_total = b.num_total) (h₃ : a.num_closed = b.num_closed) : a = b := by
  cases a
  cases b
  simp_all

/-- C10: the final counter values of the timeline reducer are invariant
under permutation of the input issue list. -/
theorem final_counters_perm_invariant (issues issues' : List Issue)
    (h : issues.Perm issues') :
    finalCounters issues = finalCounters issues' := by
  refine counters_ext _ _ ?_ ?_ ?_
  · rw [finalCounters_num_open, finalCounters_num_open, h.length_eq, h.countP_eq]
  · rw [finalCounters_num_total, finalCounters_num_total, h.length_eq]
  · rw [finalCounters_num_closed, finalCounters_num_closed, h.countP_eq]

/-- Witness for C10: a concrete list and a reordering of it. -/
theorem final_counters_perm_invariant_witness :
    ([⟨0, some 1, 1, "a", "closed"⟩, ⟨2, none, 2, "b", "open"⟩] : List Issue).Perm
        [⟨2, none, 2, "b", "open"⟩, ⟨0, some 1, 1, "a", "closed"⟩] ∧
      finalCounters [⟨0, some 1, 1, "a", "closed"⟩, ⟨2, none, 2, "b", "open"⟩] =
        finalCounters [⟨2, none, 2, "b", "open"⟩, ⟨0, some 1, 1, "a", "closed"⟩] :=
  ⟨by decide, final_counters_perm_invariant _ _ (by decide)⟩

/-! ## C4: the emitted snapshots are non-decreasing in timestamp -/

theorem scan_timestamps (es : List Event) (c : Counters) :
    (scanEvents c es).map (fun p => p.1) = es.map (fun e => e.1) := by
  induction es generalizing c with
  | nil => rfl
  | cons e es ih => simp [scanEvents, ih]

/-- C4: for every issue set, the timestamps keying the emitted snapshot
sequence are pairwise non-decreasing (each snapshot's timestamp is at least
every earlier snapshot's timestamp). -/
theorem snapshots_timestamps_monotone (issues : List Issue) :
    ((snapshots issues).map fun p => p.1).Pairwise (· ≤ ·) := by
  rw [snapshots, scan_timestamps]
  have hs : (sorted_events issues).Pairwise eventLE :=
    List.sorted_insertionSort eventLE (created_closed_events issues)
  exact hs.map (fun e : Event => e.1) (fun a b hab => hab)

/-! ## C3: stability of the sort puts creations before closures at equal
timestamps -/

theorem filter_created (issues : List Issue) (t : Timestamp) :
    (issues.map fun i => (i.created_at, (1 : Int))).filter (fun e => e.1 == t) =
      List.replicate (issues.countP fun i => i.created_at == t) ((t, 1) : Event) := by
  induction issues with
  | nil => rfl
  | cons i is ih =>
    by_cases h : i.created_at = t
    · simp [List.filter_cons, List.countP_cons, h, ih, List.replicate_succ]
    · simp [List.filter_cons, List.countP_cons, h, ih]

theorem filter_closures (issues : List Issue) (t : Timestamp) :
    (issues.filterMap fun i => i.closed_at.map fun c => (c, (-1 : Int))).filter
      (fun e => e.1 == t) =
      List.replicate (issues.countP fun i => i.closed_at == some t) ((t, -1) : Event) := by
  induction issues with
  | nil => rfl
  | cons i is ih =>
    cases hc : i.closed_at with
    | none => simp [List.filterMap_cons, hc, List.countP_cons, ih]
    | some c =>
      by_cases h : c = t
      · simp [List.filterMap_cons, hc, List.countP_cons, h, ih, List.replicate_succ,
          List.filter_cons]
      · simp [List.filterMap_cons, hc, List.countP_cons, h, ih, List.filter_cons]

theorem filter_events (issues : List Issue) (t : Timestamp) :
    (created_closed_events issues).filter (fun e => e.1 == t) =
      List.replicate (issues.countP fun i => i.created_at == t) ((t, 1) : Event) ++
        List.replicate (issues.countP fun i => i.closed_at == some t) ((t, -1) : Event) := by
  rw [created_closed_events, List.filter_append, filter_created, filter_closures]

theorem pairwise_tie_block (a b : Nat) (t : Timestamp) :
    (List.replicate a ((t, 1) : Event) ++ List.replicate b ((t, -1) : Event)).Pairwise
      eventLE := by
  apply List.pairwise_of_forall_mem_list
  intro x hx y hy
  have hx1 : x.1 = t := by
    rcases List.mem_append.1 hx with h | h <;> rw [List.eq_of_mem_replicate h]
  have hy1 : y.1 = t := by
    rcases List.mem_append.1 hy with h | h <;> rw [List.eq_of_mem_replicate h]
  show x.1 ≤ y.1
  rw [hx1, hy1]

theorem tie_block_filter (a b : Nat) (t : Timestamp) :
    (List.replicate a ((t, 1) : Event) ++ List.replicate b ((t, -1) : Event)).filter
      (fun e => e.1 == t) =
      List.replicate a ((t, 1) : Event) ++ List.replicate b ((t, -1) : Event) := by
  apply List.filter_eq_self.2
  intro e he
  rcases List.mem_append.1 he with h | h <;> rw [List.eq_of_mem_replicate h] <;> simp

theorem sorted_events_filter_eq (issues : List Issue) (t : Timestamp) :
    (sorted_events issues).filter (fun e => e.1 == t) =
      List.replicate (issues.countP fun i => i.created_at == t) ((t, 1) : Event) ++
        List.replicate (issues.countP fun i => i.closed_at == some t) ((t, -1) : Event) := by
  have hsub : List.Sublist
      (List.replicate (issues.countP fun i => i.created_at == t) ((t, 1) : Event) ++
        List.replicate (issues.countP fun i => i.closed_at == some t) ((t, -1) : Event))
      ((sorted_events issues).filter (fun e => e.1 == t)) := by
    have hpw : ((created_closed_events issues).filter (fun e => e.1 == t)).Pairwise eventLE := by
      rw [filter_events issues t]
      exact pairwise_tie_block _ _ t
    have h1 : List.Sublist
        (List.replicate (issues.countP fun i => i.created_at == t) ((t, 1) : Event) ++
          List.replicate (issues.countP fun i => i.closed_at == some t) ((t, -1) : Event))
        (sorted_events issues) := by
      rw [← filter_events issues t, sorted_events]
      exact List.sublist_insertionSort hpw (List.filter_sublist _)
    have h2 := h1.filter (fun e => e.1 == t)
    rwa [tie_block_filter] at h2
  have hlen : (List.replicate (issues.countP fun i => i.created_at == t) ((t, 1) : Event) ++
      List.replicate (issues.countP fun i => i.closed_at == some t) ((t, -1) : Event)).length =
      ((sorted_events issues).filter (fun e => e.1 == t)).length := by
    rw [← filter_events issues t, ← List.countP_eq_length_filter,
      ← List.countP_eq_length_filter, sorted_events,
      (List.perm_insertionSort eventLE _).countP_eq]
  exact (hsub.eq_of_length hlen).symm

/-- C3: event construction appends all creation events before all closure
events and the sort is stable on the timestamp alone, so events sharing a
timestamp are processed with creations before closures: for every issue
set and every timestamp `t`, the subsequence of the sorted events carrying
timestamp `t` is exactly a block of `(t, +1)` events followed by a block
of `(t, -1)` events.  In particular, for the issues
`[(created 0, closed 1), (created 0, never closed)]` the sorted sequence is
`[(0, +1), (0, +1), (1, -1)]` and the final state is
`(num_open 1, num_total 2, num_closed 1)`. -/
theorem stable_sort_ties :
    (∀ (issues : List Issue) (t : Timestamp),
      (sorted_events issues).filter (fun e => e.1 == t) =
        List.replicate (issues.countP fun i => i.created_at == t) ((t, 1) : Event) ++
          List.replicate (issues.countP fun i => i.closed_at == some t) ((t, -1) : Event)) ∧
      sorted_events [⟨0, some 1, 1, "a", "closed"⟩, ⟨0, none, 2, "b", "open"⟩] =
        [(0, 1), (0, 1), (1, -1)] ∧
      finalCounters [⟨0, some 1, 1, "a", "closed"⟩, ⟨0, none, 2, "b", "open"⟩] = ⟨1, 2, 1⟩ :=
  ⟨sorted_events_filter_eq, by decide, by decide⟩

/-! ## C5 and C6: the TODO-count cache -/

/-- C5: a commit whose hash is absent from the cache has the total marker
count over all its blobs computed and stored in the cache under its hash. -/
theorem cache_miss_stores_blob_count (cache : TodoCache) (c : Commit)
    (h : cache.lookup c.hexsha = none) :
    (processCommit cache c).2.1.lookup c.hexsha = some (commitTodoCount c) := by
  simp [processCommit, h, List.lookup]

/-- Witness for C5: the concrete scenario of a commit with one file whose
content is `"TODO( fix this\nTODO(later"` gets cached with count 2. -/
theorem cache_miss_stores_blob_count_witness :
    ([] : TodoCache).lookup "abc0" = none ∧
      (processCommit [] ⟨"abc0", "alice", ["TODO( fix this\nTODO(later"]⟩).2.1.lookup "abc0" =
        some 2 :=
  ⟨rfl, by
    have h := cache_miss_stores_blob_count [] ⟨"abc0", "alice", ["TODO( fix this\nTODO(later"]⟩ rfl
    rw [h]
    decide⟩

theorem processCommit_preserves (cache : TodoCache) (c : Commit) (k : String) (v : Nat)
    (h : cache.lookup k = some v) :
    (processCommit cache c).2.1.lookup k = some v := by
  unfold processCommit
  cases hm : cache.lookup c.hexsha with
  | some n => simpa using h
  | none =>
    rcases eq_or_ne k c.hexsha with rfl | hne
    · rw [h] at hm
      cases hm
    · simpa [List.lookup, beq_eq_false_iff_ne.2 hne] using h

theorem run_preserves (cs : List Commit) (cache : TodoCache) (k : String) (v : Nat)
    (h : cache.lookup k = some v) :
    (runTodoAccumulator cache cs).2.1.lookup k = some v := by
  induction cs generalizing cache with
  | nil => simpa [runTodoAccumulator] using h
  | cons c cs ih =>
    rw [runTodoAccumulator]
    exact ih _ (processCommit_preserves cache c k v h)

theorem processCommit_self (cache : TodoCache) (c : Commit) :
    (processCommit cache c).2.1.lookup c.hexsha = some (processCommit cache c).1 := by
  unfold processCommit
  cases hm : cache.lookup c.hexsha with
  | some n => simpa using hm
  | none => simp [List.lookup]

theorem run_counts_cached (cs : List Commit) (cache : TodoCache) :
    List.Forall₂ (fun c n => (runTodoAccumulator cache cs).2.1.lookup c.hexsha = some n)
      cs (runTodoAccumulator cache cs).1 := by
  induction cs generalizing cache with
  | nil => exact List.Forall₂.nil
  | cons c cs ih =>
    rw [runTodoAccumulator]
    exact List.Forall₂.cons
      (run_preserves cs (processCommit cache c).2.1 c.hexsha (processCommit cache c).1
        (processCommit_self cache c))
      (ih (processCommit cache c).2.1)

theorem run_all_hits (cs : List Commit) (cache : TodoCache)
    (h : ∀ c ∈ cs, ∃ n, cache.lookup c.hexsha = some n) :
    runTodoAccumulator cache cs =
      (cs.map fun c => (cache.lookup c.hexsha).getD 0, cache, 0) := by
  induction cs with
  | nil => simp [runTodoAccumulator]
  | cons c cs ih =>
    obtain ⟨n, hn⟩ := h c (List.mem_cons_self ..)
    have hpc : processCommit cache c = (n, cache, 0) := by simp [processCommit, hn]
    rw [runTodoAccumulator, hpc]
    simp [hn, ih (fun c' hc' => h c' (List.mem_cons_of_mem _ hc'))]

theorem forall₂_exists_left {α β : Type} {P : α → β → Prop} {xs : List α} {ys : List β}
    (h : List.Forall₂ P xs ys) : ∀ x ∈ xs, ∃ y, P x y := by
  induction h with
  | nil =>
    intro x hx
    cases hx
  | cons hpq _ ih =>
    intro x hx
    rcases List.mem_cons.1 hx with rfl | hx
    · exact ⟨_, hpq⟩
    · exact ih x hx

theorem forall₂_lookup_map (cs : List Commit) (ns : List Nat)
    (f : Commit → Option Nat) (h : List.Forall₂ (fun c n => f c = some n) cs ns) :
    cs.map (fun c => (f c).getD 0) = ns := by
  induction h with
  | nil => rfl
  | cons hcn _ ih => simp [hcn, ih]

/-- C6: running the TODO accumulator a second time with the cache produced
by a cold-cache run emits the same per-commit counts as the first run,
leaves the cache unchanged, and performs zero blob traversals. -/
theorem warm_cache_idempotent (commits : List Commit) :
    runTodoAccumulator (runTodoAccumulator [] commits).2.1 commits =
      ((runTodoAccumulator [] commits).1, (runTodoAccumulator [] commits).2.1, 0) := by
  have hf := run_counts_cached commits []
  have hmem : ∀ c ∈ commits,
      ∃ n, (runTodoAccumulator [] commits).2.1.lookup c.hexsha = some n :=
    forall₂_exists_left hf
  have hmap := forall₂_lookup_map commits (runTodoAccumulator [] commits).1
    (fun c => (runTodoAccumulator [] commits).2.1.lookup c.hexsha) hf
  rw [run_all_hits commits (runTodoAccumulator [] commits).2.1 hmem, hmap]

/-! ## C7 and C8: error tolerance of the issue decoding and display -/

/-- C7: an issue whose state is neither "open" nor "closed" gets the
fallback color and a console warning; `state_color` is a total function of
the issue, so such an issue never aborts the run. -/
theorem unknown_state_fallback (i : Issue) (h₁ : i.state ≠ "open") (h₂ : i.state ≠ "closed") :
    i.state_color = ((0, 0, 255, 255), some ("unknown state " ++ i.state)) := by
  simp [Issue.state_color, h₁, h₂]

/-- Witness for C7: the concrete unrecognized state "merged". -/
theorem unknown_state_fallback_witness :
    (("merged" : String) ≠ "open") ∧ (("merged" : String) ≠ "closed") ∧
      (⟨0, none, 1, "t", "merged"⟩ : Issue).state_color =
        ((0, 0, 255, 255), some "unknown state merged") :=
  ⟨by decide, by decide, by
    have h := unknown_state_fallback ⟨0, none, 1, "t", "merged"⟩ (by decide) (by decide)
    rw [h]
    rfl⟩

/-- C8: an issue record with a null `createdAt` is printed as a diagnostic,
and the decode then fails (there is no tolerant default for the required
created timestamp: `fromisoformat` raises) and the error propagates. -/
theorem missing_created_at (obj : IssueJson) (h : obj.createdAt = none) :
    (Issue.from_json obj).1 = [obj] ∧ ∃ e, (Issue.from_json obj).2 = .error e := by
  unfold Issue.from_json
  refine ⟨by simp [h], "TypeError: fromisoformat argument must be str", ?_⟩
  cases hc : obj.closedAt <;>
    simp [h, hc, fromisoformat, Except.map, Bind.bind, Except.bind]

/-- Witness for C8: a concrete record with null `createdAt`. -/
theorem missing_created_at_witness :
    (⟨1, "t", "open", none, none⟩ : IssueJson).createdAt = none ∧
      ((Issue.from_json ⟨1, "t", "open", none, none⟩).1 = [⟨1, "t", "open", none, none⟩] ∧
        ∃ e, (Issue.from_json ⟨1, "t", "open", none, none⟩).2 = .error e) :=
  ⟨rfl, missing_created_at ⟨1, "t", "open", none, none⟩ rfl⟩

/-! ## C9: closed-before-created data passes through unvalidated -/

/-- C9: an issue whose `closed_at` is earlier than its `created_at` is not
validated or rejected: both its events are emitted and sorted as-is, so for
a single such issue the closure event comes first and `num_open` is
negative at the intermediate snapshot. -/
theorem closed_before_created_negative (t c : Timestamp) (num : Int) (ti st : String)
    (h : c < t) :
    sorted_events [⟨t, some c, num, ti, st⟩] = [(c, -1), (t, 1)] ∧
      ∃ p ∈ snapshots [⟨t, some c, num, ti, st⟩], p.2.num_open < 0 := by
  have hev : created_closed_events [⟨t, some c, num, ti, st⟩] = [(t, 1), (c, -1)] := by
    simp [created_closed_events]
  have hne : ¬ eventLE ((t, 1) : Event) ((c, -1) : Event) := not_le.2 h
  have hsort : sorted_events [⟨t, some c, num, ti, st⟩] = [(c, -1), (t, 1)] := by
    rw [sorted_events, hev]
    simp [List.insertionSort, List.orderedInsert, hne]
  refine ⟨hsort, ⟨(c, stepEvent initCounters (c, -1)), ?_, ?_⟩⟩
  · rw [snapshots, hsort, scanEvents]
    exact List.mem_cons_self ..
  · show (stepEvent initCounters (c, -1)).num_open < 0
    simp [stepEvent, initCounters]

/-- Witness for C9: the concrete issue created at 1 and closed at 0. -/
theorem closed_before_created_negative_witness :
    ((0 : Timestamp) < 1) ∧
      (sorted_events [⟨1, some 0, 1, "a", "closed"⟩] = [(0, -1), (1, 1)] ∧
        ∃ p ∈ snapshots [⟨1, some 0, 1, "a", "closed"⟩], p.2.num_open < 0) :=
  ⟨by decide, closed_before_created_negative 1 0 1 "a" "closed" (by decide)⟩

end IssueExplorer
